import Mathlib

set_option maxRecDepth 8000

/- Shallow embedding of the repository fusb_mass_storage_sync
   (src/fmount.py and src/fusb_mass_storage_sync.py).

   Volume roots are modelled as normalized mount-point path strings.  The OS
   enumeration primitive os.listdrives() is a parameter (a list of path
   strings) and Path.is_dir is a boolean predicate parameter; a second,
   Except-valued variant of the enumeration models the possibility that these
   OS calls raise. -/

namespace Fmount

/-- find_drives (fmount.py, lines 16-20): keep the enumerated mount points
whose path is a directory, in enumeration order. -/
def find_drives (osdrives : List String) (is_dir : String → Bool) : List String :=
  osdrives.filter is_dir

/-- Baseline tracked list captured by the constructor (fmount.py, lines 11-14):
self.drives = list(self.find_drives()). -/
def init (osdrives : List String) (is_dir : String → Bool) : List String :=
  find_drives osdrives is_dir

/-- First loop of detect_new_drives (fmount.py, lines 28-35): walk the
enumerated drives; a drive not yet in self.drives is appended to it and the
callback runs for it.  Returns the tracked list and the callback invocations
in order. -/
def addLoop : List String → List String → List String → List String × List String
  | drives, cbs, [] => (drives, cbs)
  | drives, cbs, d :: rest =>
    if d ∈ drives then addLoop drives cbs rest
    else addLoop (drives ++ [d]) (cbs ++ [d]) rest

/-- Second loop of detect_new_drives (fmount.py, lines 37-40): Python iterates
over self.drives through an internal index while self.drives.remove(drive)
deletes the first occurrence (List.erase) of each drive absent from the
enumeration; after a removal the iterator index has already moved past the
element that shifted into the freed slot.  The fuel argument bounds the index
walk; the loop makes at most (initial length) steps, and when the fuel runs
out the list is returned unchanged exactly as the exhausted index walk would. -/
def removeLoopFuel (current : List String) : Nat → List String → Nat → List String
  | 0, lst, _ => lst
  | f + 1, lst, i =>
    match lst[i]? with
    | none => lst
    | some x =>
      if x ∈ current then removeLoopFuel current f lst (i + 1)
      else removeLoopFuel current f (lst.erase x) (i + 1)

/-- detect_new_drives (fmount.py, lines 22-40) on a tracked list and an
enumeration snapshot: the addition loop (with its callbacks) runs first, then
the removal loop; returns the new tracked list and the callback invocations. -/
def detect_new_drives (ds current : List String) : List String × List String :=
  let p := addLoop ds [] current
  (removeLoopFuel current p.1.length p.1 0, p.2)

/-- Reformulation of the removal loop that makes the index walk structural: a
drive present in the enumeration is kept; a stale drive is dropped and the
element that shifts into its slot is kept without being examined (the flag
records that the previous slot was freed). -/
def removeStaleF (current : List String) : Bool → List String → List String
  | _, [] => []
  | true, x :: rest => x :: removeStaleF current false rest
  | false, x :: rest =>
    if x ∈ current then x :: removeStaleF current false rest
    else removeStaleF current true rest

theorem mem_addLoop_left {x : String} :
    ∀ {l drives cbs : List String}, x ∈ drives → x ∈ (addLoop drives cbs l).1 := by
  intro l
  induction l with
  | nil => intro drives cbs h; simpa [addLoop] using h
  | cons d rest ih =>
    intro drives cbs h
    by_cases hd : d ∈ drives
    · simpa [addLoop, hd] using ih h
    · simp only [addLoop, if_neg hd]
      exact ih (List.mem_append_left _ h)

theorem mem_addLoop_enum {x : String} :
    ∀ {l drives cbs : List String}, x ∈ l → x ∈ (addLoop drives cbs l).1 := by
  intro l
  induction l with
  | nil => intro drives cbs h; simp at h
  | cons d rest ih =>
    intro drives cbs h
    by_cases hd : d ∈ drives
    · simp only [addLoop, if_pos hd]
      rcases List.mem_cons.1 h with h1 | h1
      · exact mem_addLoop_left (h1 ▸ hd)
      · exact ih h1
    · simp only [addLoop, if_neg hd]
      rcases List.mem_cons.1 h with h1 | h1
      · exact mem_addLoop_left (by simp [h1])
      · exact ih h1

theorem addLoop_of_forall_mem :
    ∀ {l drives cbs : List String}, (∀ x ∈ l, x ∈ drives) →
      addLoop drives cbs l = (drives, cbs) := by
  intro l
  induction l with
  | nil => intro drives cbs _; rfl
  | cons d rest ih =>
    intro drives cbs h
    have hd : d ∈ drives := h d (by simp)
    simp only [addLoop, if_pos hd]
    exact ih fun x hx => h x (by simp [hx])

theorem addLoop_cb_not_mem {x : String} :
    ∀ {l drives cbs : List String}, x ∈ drives → x ∉ cbs →
      x ∉ (addLoop drives cbs l).2 := by
  intro l
  induction l with
  | nil => intro drives cbs _ hcb; simpa [addLoop] using hcb
  | cons d rest ih =>
    intro drives cbs hx hcb
    by_cases hd : d ∈ drives
    · simp only [addLoop, if_pos hd]
      exact ih hx hcb
    · simp only [addLoop, if_neg hd]
      have hne : x ≠ d := fun h => hd (h ▸ hx)
      exact ih (List.mem_append_left _ hx) (by simp [hcb, hne])

theorem addLoop_nodup :
    ∀ {l drives cbs : List String}, drives.Nodup → (addLoop drives cbs l).1.Nodup := by
  intro l
  induction l with
  | nil => intro drives cbs h; simpa [addLoop] using h
  | cons d rest ih =>
    intro drives cbs h
    by_cases hd : d ∈ drives
    · simp only [addLoop, if_pos hd]; exact ih h
    · simp only [addLoop, if_neg hd]
      exact ih (by simp [List.nodup_append, h, hd])

theorem addLoop_append_of_mem :
    ∀ {l1 l2 drives cbs : List String}, (∀ x ∈ l1, x ∈ drives) →
      addLoop drives cbs (l1 ++ l2) = addLoop drives cbs l2 := by
  intro l1
  induction l1 with
  | nil => intro l2 drives cbs _; rfl
  | cons d rest ih =>
    intro l2 drives cbs h
    have hd : d ∈ drives := h d (by simp)
    simp only [List.cons_append, addLoop, if_pos hd]
    exact ih fun x hx => h x (by simp [hx])

theorem addLoop_filter :
    ∀ {l drives cbs : List String}, l.Nodup →
      addLoop drives cbs l =
        (drives ++ l.filter (fun d => decide (d ∉ drives)),
         cbs ++ l.filter (fun d => decide (d ∉ drives))) := by
  intro l
  induction l with
  | nil => intro drives cbs _; simp [addLoop]
  | cons d rest ih =>
    intro drives cbs h
    have hd_rest : d ∉ rest := (List.nodup_cons.1 h).1
    have hrest : rest.Nodup := (List.nodup_cons.1 h).2
    by_cases hd : d ∈ drives
    · simp only [addLoop, if_pos hd]
      rw [ih hrest]
      simp [List.filter_cons, hd]
    · simp only [addLoop, if_neg hd]
      rw [ih hrest]
      have hcongr : rest.filter (fun x => decide (x ∉ drives ++ [d])) =
          rest.filter (fun x => decide (x ∉ drives)) := by
        apply List.filter_congr
        intro x hx
        have hne : x ≠ d := fun h1 => hd_rest (h1 ▸ hx)
        simp [hne]
      rw [hcongr]
      simp [List.filter_cons, hd, List.append_assoc]

theorem removeLoopFuel_sublist (current : List String) :
    ∀ (f : Nat) (lst : List String) (i : Nat),
      List.Sublist (removeLoopFuel current f lst i) lst := by
  intro f
  induction f with
  | zero => intro lst i; exact List.Sublist.refl _
  | succ f ih =>
    intro lst i
    simp only [removeLoopFuel]
    split
    · exact List.Sublist.refl _
    · split
      · exact ih lst (i + 1)
      · exact (ih _ (i + 1)).trans (List.erase_sublist _ _)

theorem removeLoopFuel_mem_current {x : String} {current : List String}
    (hx : x ∈ current) :
    ∀ (f : Nat) (lst : List String) (i : Nat), x ∈ lst →
      x ∈ removeLoopFuel current f lst i := by
  intro f
  induction f with
  | zero => intro lst i h; simpa [removeLoopFuel] using h
  | succ f ih =>
    intro lst i h
    simp only [removeLoopFuel]
    split
    · exact h
    · rename_i y hy
      split
      · exact ih lst (i + 1) h
      · rename_i hyc
        have hne : x ≠ y := fun h1 => hyc (h1 ▸ hx)
        exact ih _ (i + 1) ((List.mem_erase_of_ne hne).2 h)

theorem removeLoopFuel_of_subset {current : List String} :
    ∀ (f : Nat) (lst : List String) (i : Nat), (∀ x ∈ lst, x ∈ current) →
      removeLoopFuel current f lst i = lst := by
  intro f
  induction f with
  | zero => intro lst i _; rfl
  | succ f ih =>
    intro lst i h
    simp only [removeLoopFuel]
    split
    · rfl
    · rename_i y hy
      have hyl : y ∈ lst := by
        have := List.getElem?_eq_some.1 hy
        rcases this with ⟨hlt, hget⟩
        exact hget ▸ List.getElem_mem _
      rw [if_pos (h y hyl)]
      exact ih lst (i + 1) h

theorem removeLoopFuel_stop {current : List String} (f : Nat)
    {lst : List String} {i : Nat} (h : lst.length ≤ i) :
    removeLoopFuel current f lst i = lst := by
  cases f with
  | zero => rfl
  | succ f => simp [removeLoopFuel, List.getElem?_eq_none h]

theorem index_append_cons (done : List String) (x : String) (rest : List String) :
    (done ++ x :: rest)[done.length]? = some x := by
  induction done with
  | nil => simp
  | cons a tail ih => simpa using ih

theorem removeStaleF_of_subset {current : List String} :
    ∀ {l : List String}, (∀ x ∈ l, x ∈ current) →
      ∀ b, removeStaleF current b l = l := by
  intro l
  induction l with
  | nil => intro _ b; cases b <;> rfl
  | cons x rest ih =>
    intro h b
    have hx : x ∈ current := h x (by simp)
    have hrest : ∀ y ∈ rest, y ∈ current := fun y hy => h y (by simp [hy])
    cases b with
    | true => simp [removeStaleF, ih hrest false]
    | false => simp [removeStaleF, hx, ih hrest false]

theorem removeStaleF_erase {a : String} {current : List String} :
    ∀ {l : List String}, l.Nodup → a ∉ current → (∀ x ∈ l, x ≠ a → x ∈ current) →
      removeStaleF current false l = l.erase a := by
  intro l
  induction l with
  | nil => intro _ _ _; rfl
  | cons x rest ih =>
    intro hnd ha h
    have hxrest : x ∉ rest := (List.nodup_cons.1 hnd).1
    have hrest : rest.Nodup := (List.nodup_cons.1 hnd).2
    by_cases hxa : x = a
    · subst hxa
      simp only [removeStaleF, if_neg ha]
      have hsub : ∀ y ∈ rest, y ∈ current := by
        intro y hy
        exact h y (by simp [hy]) (fun h1 => hxrest (h1 ▸ hy))
      rw [List.erase_cons_head]
      cases rest with
      | nil => rfl
      | cons y rest2 =>
        have : ∀ z ∈ rest2, z ∈ current := fun z hz => hsub z (by simp [hz])
        simp [removeStaleF, removeStaleF_of_subset this false]
    · have hx : x ∈ current := h x (by simp) hxa
      simp only [removeStaleF, if_pos hx]
      rw [List.erase_cons_tail (by simp [hxa])]
      rw [ih hrest ha (fun y hy => h y (by simp [hy]))]

theorem removeLoopFuel_eq_removeStaleF (current : List String) :
    ∀ (f : Nat) (todo done : List String), (done ++ todo).Nodup → todo.length ≤ f →
      removeLoopFuel current f (done ++ todo) done.length =
        done ++ removeStaleF current false todo := by
  intro f
  induction f with
  | zero =>
    intro todo done _ hlen
    have : todo = [] := List.length_eq_zero.1 (Nat.le_zero.1 hlen)
    subst this
    rfl
  | succ f ih =>
    intro todo done hnd hlen
    cases todo with
    | nil =>
      simp only [removeStaleF, List.append_nil]
      exact removeLoopFuel_stop (f + 1) (le_refl _)
    | cons x rest =>
      simp only [removeLoopFuel, index_append_cons]
      by_cases hx : x ∈ current
      · rw [if_pos hx]
        have h1 : done ++ x :: rest = (done ++ [x]) ++ rest := by simp
        have h2 : done.length + 1 = (done ++ [x]).length := by simp
        rw [h1, h2, ih rest (done ++ [x]) (by simpa using hnd) (by simpa using Nat.le_of_succ_le_succ hlen)]
        simp [removeStaleF, hx]
      · rw [if_neg hx]
        have hxdone : x ∉ done := by
          have := (List.nodup_append.1 hnd).2.2
          intro hmem
          exact this hmem (by simp)
        have herase : (done ++ x :: rest).erase x = done ++ rest := by
          rw [List.erase_append_right _ hxdone, List.erase_cons_head]
        rw [herase]
        cases rest with
        | nil =>
          simp only [List.append_nil]
          have h0 : removeStaleF current false [x] = [] := by
            simp [removeStaleF, hx]
          rw [h0, List.append_nil]
          exact removeLoopFuel_stop f (Nat.le_succ _)
        | cons y rest2 =>
          have h1 : done ++ y :: rest2 = (done ++ [y]) ++ rest2 := by simp
          have h2 : done.length + 1 = (done ++ [y]).length := by simp
          have hnd2 : ((done ++ [y]) ++ rest2).Nodup := by
            have hsub : List.Sublist (done ++ y :: rest2) (done ++ x :: y :: rest2) :=
              List.Sublist.append_left (List.sublist_cons_self _ _) done
            have := List.Nodup.sublist hsub hnd
            simpa using this
          have hlen2 : rest2.length ≤ f := by
            simp only [List.length_cons] at hlen
            omega
          rw [h1, h2, ih rest2 (done ++ [y]) hnd2 hlen2]
          simp [removeStaleF, hx]

theorem removeLoop_eq_removeStaleF {current lst : List String} (h : lst.Nodup) :
    removeLoopFuel current lst.length lst 0 = removeStaleF current false lst := by
  have h0 := removeLoopFuel_eq_removeStaleF current lst.length lst [] (by simpa using h) (le_refl _)
  simpa using h0

theorem mem_detect_of_mem_current {d : String} {ds current : List String}
    (h : d ∈ current) : d ∈ (detect_new_drives ds current).1 :=
  removeLoopFuel_mem_current h _ _ 0 (mem_addLoop_enum h)

theorem detect_stable {ds1 current : List String} (hsub : ∀ d ∈ current, d ∈ ds1) :
    (detect_new_drives ds1 current).2 = []
    ∧ ((∀ x ∈ ds1, x ∈ current) → (detect_new_drives ds1 current).1 = ds1) := by
  have hadd : addLoop ds1 [] current = (ds1, []) := addLoop_of_forall_mem hsub
  constructor
  · simp [detect_new_drives, hadd]
  · intro h
    simp only [detect_new_drives, hadd]
    exact removeLoopFuel_of_subset _ _ 0 h

/-- C1: evaluation at the failing input.  With baseline S0 = [A:, B:] and next
snapshot S1 = {} (both drives unplugged in the same tick), one replay of
detect_new_drives leaves the stale entry B: in the tracked list: the removal
loop calls self.drives.remove while iterating over self.drives, so the element
that shifts into a removed slot is skipped.  The tracked list therefore does
not equal the final snapshot, although the inline comment of the loop says it
removes every drive that is no longer present. -/
theorem c1_stale_entry_after_replay :
    detect_new_drives (init ["A:", "B:"] (fun _ => true)) (find_drives [] (fun _ => true))
      = (["B:"], [])
    ∧ (["B:"] : List String) ≠ [] := by
  constructor
  · rfl
  · decide

/-- C6: the tracked list never holds duplicate volume roots: the baseline
captured by the constructor is duplicate-free whenever the OS enumeration is,
and detect_new_drives preserves duplicate-freeness of the tracked list. -/
theorem c6_tracked_nodup (osdrives : List String) (is_dir : String → Bool)
    (ds current : List String) (h0 : osdrives.Nodup) (h1 : ds.Nodup) :
    (init osdrives is_dir).Nodup ∧ (detect_new_drives ds current).1.Nodup := by
  constructor
  · exact h0.filter _
  · exact List.Nodup.sublist (removeLoopFuel_sublist current _ _ 0) (addLoop_nodup h1)

theorem c6_tracked_nodup_witness :
    (init ["A:", "B:"] (fun _ => true)).Nodup
    ∧ (detect_new_drives ["A:"] ["B:"]).1.Nodup :=
  c6_tracked_nodup ["A:", "B:"] (fun _ => true) ["A:"] ["B:"] (by decide) (by decide)

/-- C7 counterexample: starting from tracked list [A:, B:] with an unchanged
empty enumeration, the first detect_new_drives call leaves the stale entry B:
behind and the second call then removes it, so the second call does change the
tracked list, contrary to the claim. -/
theorem c7_second_call_changes_tracked :
    ¬ ((detect_new_drives (detect_new_drives ["A:", "B:"] []).1 []).1
        = (detect_new_drives ["A:", "B:"] []).1) := by
  decide

/-- C7 amended: calling detect_new_drives twice in a row with an unchanged
enumeration result produces zero handler invocations on the second call; and
whenever the tracked list left by the first call contains only drives present
in the enumeration (no stale entries), the second call also leaves the tracked
list unchanged. -/
theorem c7_idempotent_amended (ds current : List String) :
    (detect_new_drives (detect_new_drives ds current).1 current).2 = []
    ∧ ((∀ x ∈ (detect_new_drives ds current).1, x ∈ current) →
        (detect_new_drives (detect_new_drives ds current).1 current).1
          = (detect_new_drives ds current).1) :=
  detect_stable (fun _ hd => mem_detect_of_mem_current hd)

theorem c7_idempotent_amended_witness :
    (detect_new_drives (detect_new_drives ["A:"] ["B:"]).1 ["B:"]).2 = []
    ∧ (detect_new_drives (detect_new_drives ["A:"] ["B:"]).1 ["B:"]).1
        = (detect_new_drives ["A:"] ["B:"]).1 :=
  ⟨(c7_idempotent_amended ["A:"] ["B:"]).1,
   (c7_idempotent_amended ["A:"] ["B:"]).2 (by decide)⟩

/-- C5: in one detect_new_drives call all additions, with their callbacks, run
before the removal loop.  First conjunct: when one tracked volume a disappears
and a different volume b appears in the same tick, each is classified
correctly: the resulting tracked list is exactly the new snapshot and the
callback fires once, for b only.  Second conjunct: on any duplicate-free
snapshot, the callbacks are exactly the newly appeared drives in enumeration
order. -/
theorem c5_swap_classified (ds : List String) (a b : String)
    (hnd : ds.Nodup) (ha : a ∈ ds) (hb : b ∉ ds) :
    detect_new_drives ds (ds.erase a ++ [b]) = (ds.erase a ++ [b], [b])
    ∧ ∀ current, current.Nodup →
        (detect_new_drives ds current).2 = current.filter (fun d => decide (d ∉ ds)) := by
  constructor
  · have hpre : ∀ x ∈ ds.erase a, x ∈ ds := fun x hx => List.mem_of_mem_erase hx
    have hadd : addLoop ds [] (ds.erase a ++ [b]) = (ds ++ [b], [b]) := by
      rw [addLoop_append_of_mem hpre]
      simp [addLoop, hb]
    have hnd2 : (ds ++ [b]).Nodup := by simp [List.nodup_append, hnd, hb]
    have hanotcur : a ∉ ds.erase a ++ [b] := by
      intro hmem
      rcases List.mem_append.1 hmem with h | h
      · exact ((List.Nodup.mem_erase_iff hnd).1 h).1 rfl
      · have hab : a = b := by simpa using h
        exact hb (hab ▸ ha)
    have hothers : ∀ x ∈ ds ++ [b], x ≠ a → x ∈ ds.erase a ++ [b] := by
      intro x hx hxa
      rcases List.mem_append.1 hx with h | h
      · exact List.mem_append_left _ ((List.Nodup.mem_erase_iff hnd).2 ⟨hxa, h⟩)
      · exact List.mem_append_right _ h
    simp only [detect_new_drives, hadd]
    rw [removeLoop_eq_removeStaleF hnd2, removeStaleF_erase hnd2 hanotcur hothers,
        List.erase_append_left _ ha]
  · intro current hcur
    simp [detect_new_drives, addLoop_filter hcur]

theorem c5_swap_classified_witness :
    detect_new_drives ["A:"] (["A:"].erase "A:" ++ ["B:"]) = (["A:"].erase "A:" ++ ["B:"], ["B:"])
    ∧ ∀ current, current.Nodup →
        (detect_new_drives ["A:"] current).2 = current.filter (fun d => decide (d ∉ ["A:"])) :=
  c5_swap_classified ["A:"] "A:" "B:" (by decide) (by decide) (by decide)

/-- Variant of the addition loop in which the callback may raise: the drive is
appended to self.drives first, then the callback runs; when it raises, the
exception propagates, carrying the raising drive and the tracked list at that
point (fmount.py, lines 28-34). -/
def addLoopRaise (fails : String → Bool) :
    List String → List String → List String →
      Except (String × List String) (List String × List String)
  | drives, cbs, [] => .ok (drives, cbs)
  | drives, cbs, d :: rest =>
    if d ∈ drives then addLoopRaise fails drives cbs rest
    else if fails d then .error (d, drives ++ [d])
    else addLoopRaise fails (drives ++ [d]) (cbs ++ [d]) rest

/-- detect_new_drives when the callback may raise: an exception from the
addition loop propagates out of the call (the removal loop never runs) and the
tracked list keeps the already-appended drive. -/
def detect_new_drives_raise (fails : String → Bool) (ds current : List String) :
    Except (String × List String) (List String × List String) :=
  match addLoopRaise fails ds [] current with
  | .error e => .error e
  | .ok p => .ok (removeLoopFuel current p.1.length p.1 0, p.2)

theorem addLoopRaise_error_mem {fails : String → Bool} {d : String} {ds1 : List String} :
    ∀ {l drives cbs : List String},
      addLoopRaise fails drives cbs l = .error (d, ds1) → d ∈ ds1 := by
  intro l
  induction l with
  | nil => intro drives cbs h; simp [addLoopRaise] at h
  | cons e rest ih =>
    intro drives cbs h
    by_cases he : e ∈ drives
    · exact ih (by simpa [addLoopRaise, he] using h)
    · by_cases hf : fails e
      · simp only [addLoopRaise, if_neg he, if_pos hf, Except.error.injEq,
          Prod.mk.injEq] at h
        obtain ⟨h4, h5⟩ := h
        subst h4
        subst h5
        simp
      · simp only [addLoopRaise, if_neg he, if_neg hf] at h
        exact ih h

/-- C10: a newly appeared drive is appended to the tracked list strictly before
its callback runs, so when the callback raises, the drive is already tracked
(the addition is not rolled back) and no later detect_new_drives call reports
it as new again. -/
theorem c10_append_before_callback (fails : String → Bool) (ds current : List String)
    (d : String) (ds1 : List String)
    (h : detect_new_drives_raise fails ds current = .error (d, ds1)) :
    d ∈ ds1 ∧ ∀ current2, d ∉ (detect_new_drives ds1 current2).2 := by
  have herr : addLoopRaise fails ds [] current = .error (d, ds1) := by
    cases he : addLoopRaise fails ds [] current with
    | error e =>
      unfold detect_new_drives_raise at h
      rw [he] at h
      simpa using h
    | ok p =>
      unfold detect_new_drives_raise at h
      rw [he] at h
      simp at h
  have hmem : d ∈ ds1 := addLoopRaise_error_mem herr
  refine ⟨hmem, fun current2 => ?_⟩
  have hrw : (detect_new_drives ds1 current2).2 = (addLoop ds1 [] current2).2 := rfl
  rw [hrw]
  exact addLoop_cb_not_mem hmem (by simp)

theorem c10_append_before_callback_witness :
    ("E:" ∈ ["E:"]) ∧ ∀ current2, "E:" ∉ (detect_new_drives ["E:"] current2).2 :=
  c10_append_before_callback (fun _ => true) [] ["E:"] "E:" ["E:"] (by rfl)

/-- Body of the find_drives generator when the directory check may raise
(fmount.py, lines 16-20): each enumerated path is checked in order; an
exception from Path.is_dir propagates, there is no try/except in the source. -/
def find_drives_go (is_dir : String → Except String Bool) :
    List String → Except String (List String)
  | [] => .ok []
  | d :: rest =>
    match is_dir d with
    | .error e => .error e
    | .ok b =>
      match find_drives_go is_dir rest with
      | .error e => .error e
      | .ok r => .ok (if b then d :: r else r)

/-- find_drives when os.listdrives or Path.is_dir may raise: an exception from
either call propagates out of the enumeration. -/
def find_drives_fallible (osdrives : Except String (List String))
    (is_dir : String → Except String Bool) : Except String (List String) :=
  match osdrives with
  | .error e => .error e
  | .ok l => find_drives_go is_dir l

/-- detect_new_drives driven by the fallible enumeration: an enumeration
exception propagates out of the call before any tracked-list update. -/
def detect_new_drives_fallible (ds : List String)
    (osdrives : Except String (List String))
    (is_dir : String → Except String Bool) :
    Except String (List String × List String) :=
  match find_drives_fallible osdrives is_dir with
  | .error e => .error e
  | .ok current => .ok (detect_new_drives ds current)

/-- scan (fmount.py, lines 42-49) replayed over a finite schedule of poll
ticks, each tick supplying the OS enumeration outcome of that tick: the loop
body calls detect_new_drives and an exception escaping it terminates the loop
with that error; otherwise polling continues with the updated tracked list. -/
def scan (ticks : List (Except String (List String) × (String → Except String Bool)))
    (ds : List String) : Except String (List String) :=
  match ticks with
  | [] => .ok ds
  | t :: rest =>
    match detect_new_drives_fallible ds t.1 t.2 with
    | .error e => .error e
    | .ok p => scan rest p.1

/-- C2 counterexample: a raising os.listdrives makes scan terminate with the
error, the tick does not complete and the later tick is never polled; a
raising Path.is_dir likewise propagates out of detect_new_drives.  The claim
that enumeration failures are absorbed and the loop keeps polling is false. -/
theorem c2_enumeration_error_terminates_scan :
    scan [(.error "OSError", fun _ => .ok true), (.ok ["B:"], fun _ => .ok true)] ["A:"]
      = .error "OSError"
    ∧ detect_new_drives_fallible ["A:"] (.ok ["A:", "B:"])
        (fun p => if p = "B:" then .error "PermissionError" else .ok true)
      = .error "PermissionError" :=
  ⟨rfl, rfl⟩

theorem find_drives_go_ok {is_dir : String → Except String Bool} {f : String → Bool} :
    ∀ {l : List String}, (∀ d ∈ l, is_dir d = .ok (f d)) →
      find_drives_go is_dir l = .ok (l.filter f) := by
  intro l
  induction l with
  | nil => intro _; rfl
  | cons d rest ih =>
    intro h
    have hd : is_dir d = .ok (f d) := h d (by simp)
    have hrest := ih fun x hx => h x (by simp [hx])
    simp only [find_drives_go, hd, hrest]
    cases hf : f d <;> simp [List.filter_cons, hf]

/-- C2 amended: an exception raised while querying mount points or while
checking a path's directory-ness is not absorbed: it propagates out of
detect_new_drives and the scan loop terminates with that error.  Only the
non-raising case is tolerated: a path whose directory check returns false
without raising is treated as absent and the tick completes. -/
theorem c2_amended_propagation (ds : List String)
    (osdrives : Except String (List String))
    (is_dir : String → Except String Bool)
    (ticks : List (Except String (List String) × (String → Except String Bool)))
    (e : String) :
    (find_drives_fallible osdrives is_dir = .error e →
      detect_new_drives_fallible ds osdrives is_dir = .error e
      ∧ scan ((osdrives, is_dir) :: ticks) ds = .error e)
    ∧ ∀ (l : List String) (f : String → Bool), osdrives = .ok l →
        (∀ d ∈ l, is_dir d = .ok (f d)) →
        detect_new_drives_fallible ds osdrives is_dir
          = .ok (detect_new_drives ds (l.filter f)) := by
  constructor
  · intro h
    have h1 : detect_new_drives_fallible ds osdrives is_dir = .error e := by
      unfold detect_new_drives_fallible
      rw [h]
    exact ⟨h1, by unfold scan; rw [h1]⟩
  · intro l f hl hcheck
    subst hl
    have h2 : find_drives_fallible (.ok l) is_dir = .ok (l.filter f) := by
      unfold find_drives_fallible
      exact find_drives_go_ok hcheck
    unfold detect_new_drives_fallible
    rw [h2]

theorem c2_amended_propagation_witness :
    (detect_new_drives_fallible ["A:"] (.error "OSError") (fun _ => .ok true)
        = .error "OSError"
      ∧ scan [((.error "OSError" : Except String (List String)), fun _ => .ok true)] ["A:"]
          = .error "OSError")
    ∧ detect_new_drives_fallible ["A:"] (.ok ["A:", "C:"]) (fun _ => .ok true)
        = .ok (detect_new_drives ["A:"] (["A:", "C:"].filter (fun _ => true))) :=
  ⟨(c2_amended_propagation ["A:"] (.error "OSError") (fun _ => .ok true) [] "OSError").1 rfl,
   (c2_amended_propagation ["A:"] (.ok ["A:", "C:"]) (fun _ => .ok true) [] "OSError").2
     ["A:", "C:"] (fun _ => true) rfl (fun _ _ => rfl)⟩

end Fmount

namespace FMassStorageSync

/-- Configuration state: the in-memory ConfigParser section Settings as an
ordered key-value list, the persisted INI file contents (none while the file
has never been written), and a count of write_ini calls. -/
structure Config where
  settings : List (String × String)
  disk : Option (List (String × String))
  writes : Nat
deriving DecidableEq

/-- ConfigParser.get with fallback None on the Settings section: the value of
the first matching key, if any. -/
def lookupKV (k : String) : List (String × String) → Option String
  | [] => none
  | kv :: rest => if kv.1 = k then some kv.2 else lookupKV k rest

/-- ConfigParser.set on the Settings section: replace the value of an existing
key in place, or append the new key at the end. -/
def setKV (k v : String) : List (String × String) → List (String × String)
  | [] => [(k, v)]
  | kv :: rest => if kv.1 = k then (k, v) :: rest else kv :: setKV k v rest

/-- write_ini (fusb_mass_storage_sync.py, lines 110-116): rewrite the whole
INI file from the in-memory configuration. -/
def write_ini (c : Config) : Config :=
  { c with disk := some c.settings, writes := c.writes + 1 }

/-- set_settings (fusb_mass_storage_sync.py, lines 101-107): update the key in
the Settings section, then persist the whole configuration with write_ini. -/
def set_settings (c : Config) (k v : String) : Config :=
  write_ini { c with settings := setKV k v c.settings }

/-- Source constant defaut_remote_path = 'DCIM' (its spelling). -/
def defaut_remote_path : String := "DCIM"

/-- Source constant default_icon_path = "icon.png". -/
def default_icon_path : String := "icon.png"

/-- Source constant default_sync_interval = 1.0, as a rational. -/
def default_sync_interval : Rat := 1

/-- Python prints the float constant 1.0 as "1.0": the string that
set_settings('sync_interval', sync_interval) stores via str(value). -/
def default_sync_interval_repr : String := "1.0"

/-- Source constant sleep_before_sync = 2.0, as a rational. -/
def sleep_before_sync : Rat := 2

/-- local_folder property (fusb_mass_storage_sync.py, lines 61-63): plain get
with fallback None, no defaulting and no write. -/
def local_folder (c : Config) : Option String :=
  lookupKV "local_folder" c.settings

/-- remote_path property (fusb_mass_storage_sync.py, lines 68-74): get with
fallback None; when unset, the default 'DCIM' is stored through set_settings
(which persists the whole configuration) and returned. -/
def remote_path (c : Config) : String × Config :=
  match lookupKV "remote_path" c.settings with
  | some v => (v, c)
  | none => (defaut_remote_path, set_settings c "remote_path" defaut_remote_path)

/-- icon_path property (fusb_mass_storage_sync.py, lines 79-85): get with
fallback None; when unset, the default "icon.png" is stored through
set_settings and returned. -/
def icon_path (c : Config) : String × Config :=
  match lookupKV "icon_path" c.settings with
  | some v => (v, c)
  | none => (default_icon_path, set_settings c "icon_path" default_icon_path)

/-- Decimal digit of a character, for the fragment of the Python float grammar
exercised by the configuration values. -/
def digitVal (c : Char) : Option Nat :=
  if c = '0' then some 0
  else if c = '1' then some 1
  else if c = '2' then some 2
  else if c = '3' then some 3
  else if c = '4' then some 4
  else if c = '5' then some 5
  else if c = '6' then some 6
  else if c = '7' then some 7
  else if c = '8' then some 8
  else if c = '9' then some 9
  else none

/-- Digits of a non-empty digit string read as a natural number. -/
def digitsToNat : List Char → Option Nat
  | [] => none
  | [c] => digitVal c
  | c :: rest =>
    match digitVal c, digitsToNat rest with
    | some d, some n => some (d * 10 ^ rest.length + n)
    | _, _ => none

/-- Characters before the first dot, and those after it when a dot occurs. -/
def splitDot : List Char → List Char × Option (List Char)
  | [] => ([], none)
  | c :: rest =>
    if c = '.' then ([], some rest)
    else
      match splitDot rest with
      | (before, after) => (c :: before, after)

/-- Conversion of a plain decimal literal to a rational, modelling float() of
ConfigParser.getfloat on the simple non-negative decimal strings this
configuration stores; any other string is a parse failure (ValueError). -/
def parseDecimal (s : String) : Option Rat :=
  match splitDot s.toList with
  | (intpart, none) => (digitsToNat intpart).map (fun n => (n : Rat))
  | (intpart, some frac) =>
    if ('.' ∈ frac) then none
    else
      match digitsToNat intpart, digitsToNat frac with
      | some n, some f => some (mkRat (n * 10 ^ frac.length + f) (10 ^ frac.length))
      | _, _ => none

/-- sync_interval property (fusb_mass_storage_sync.py, lines 90-96): getfloat
with fallback None; when the key is unset, the default 1.0 is stored through
set_settings (as str(1.0) = "1.0") and returned; when the key is set, its
string is parsed as a float, a parse failure raising ValueError. -/
def sync_interval (c : Config) : Except String (Rat × Config) :=
  match lookupKV "sync_interval" c.settings with
  | none =>
    .ok (default_sync_interval, set_settings c "sync_interval" default_sync_interval_repr)
  | some s =>
    match parseDecimal s with
    | some q => .ok (q, c)
    | none => .error "ValueError"

theorem lookupKV_setKV_self (k v : String) :
    ∀ s : List (String × String), lookupKV k (setKV k v s) = some v := by
  intro s
  induction s with
  | nil => simp [setKV, lookupKV]
  | cons kv rest ih =>
    by_cases h : kv.1 = k
    · simp [setKV, lookupKV, h]
    · simp [setKV, lookupKV, h, ih]

theorem set_settings_writes (c : Config) (k v : String) :
    (set_settings c k v).writes = c.writes + 1 := rfl

theorem set_settings_disk (c : Config) (k v : String) :
    (set_settings c k v).disk = some (set_settings c k v).settings := rfl

theorem parseDecimal_one : parseDecimal default_sync_interval_repr = some 1 := by decide

/-- C4: reading an unset configuration field with a documented default
(remote_path "DCIM", icon_path "icon.png", sync_interval 1.0) returns that
default and, as a side effect of this first read, persists it through a
write_ini of the whole configuration; a second read of the field returns the
same value with the configuration unchanged, so no further write happens. -/
theorem c4_lazy_default_persist (c : Config) :
    (lookupKV "remote_path" c.settings = none →
      remote_path c = ("DCIM", set_settings c "remote_path" "DCIM")
      ∧ (set_settings c "remote_path" "DCIM").disk
          = some (set_settings c "remote_path" "DCIM").settings
      ∧ (set_settings c "remote_path" "DCIM").writes = c.writes + 1
      ∧ remote_path (set_settings c "remote_path" "DCIM")
          = ("DCIM", set_settings c "remote_path" "DCIM"))
    ∧ (lookupKV "icon_path" c.settings = none →
      icon_path c = ("icon.png", set_settings c "icon_path" "icon.png")
      ∧ (set_settings c "icon_path" "icon.png").disk
          = some (set_settings c "icon_path" "icon.png").settings
      ∧ (set_settings c "icon_path" "icon.png").writes = c.writes + 1
      ∧ icon_path (set_settings c "icon_path" "icon.png")
          = ("icon.png", set_settings c "icon_path" "icon.png"))
    ∧ (lookupKV "sync_interval" c.settings = none →
      sync_interval c = .ok (1, set_settings c "sync_interval" "1.0")
      ∧ (set_settings c "sync_interval" "1.0").disk
          = some (set_settings c "sync_interval" "1.0").settings
      ∧ (set_settings c "sync_interval" "1.0").writes = c.writes + 1
      ∧ sync_interval (set_settings c "sync_interval" "1.0")
          = .ok (1, set_settings c "sync_interval" "1.0")) := by
  refine ⟨?_, ?_, ?_⟩
  · intro h
    refine ⟨?_, rfl, rfl, ?_⟩
    · simp [remote_path, h, defaut_remote_path]
    · have h2 : lookupKV "remote_path" (set_settings c "remote_path" "DCIM").settings
          = some "DCIM" := lookupKV_setKV_self _ _ _
      simp [remote_path, h2]
  · intro h
    refine ⟨?_, rfl, rfl, ?_⟩
    · simp [icon_path, h, default_icon_path]
    · have h2 : lookupKV "icon_path" (set_settings c "icon_path" "icon.png").settings
          = some "icon.png" := lookupKV_setKV_self _ _ _
      simp [icon_path, h2]
  · intro h
    refine ⟨?_, rfl, rfl, ?_⟩
    · simp [sync_interval, h, default_sync_interval, default_sync_interval_repr]
    · have h2 : lookupKV "sync_interval" (set_settings c "sync_interval" "1.0").settings
          = some "1.0" := lookupKV_setKV_self _ _ _
      have h3 : parseDecimal "1.0" = some 1 := parseDecimal_one
      simp [sync_interval, h2, h3]

theorem c4_lazy_default_persist_witness :
    remote_path ⟨[], none, 0⟩ = ("DCIM", set_settings ⟨[], none, 0⟩ "remote_path" "DCIM")
    ∧ icon_path ⟨[], none, 0⟩ = ("icon.png", set_settings ⟨[], none, 0⟩ "icon_path" "icon.png")
    ∧ sync_interval ⟨[], none, 0⟩
        = .ok (1, set_settings ⟨[], none, 0⟩ "sync_interval" "1.0") :=
  ⟨((c4_lazy_default_persist ⟨[], none, 0⟩).1 rfl).1,
   ((c4_lazy_default_persist ⟨[], none, 0⟩).2.1 rfl).1,
   ((c4_lazy_default_persist ⟨[], none, 0⟩).2.2 rfl).1⟩

/-- Entries of a finite directory tree: a file or a subdirectory with its
children. -/
inductive Entry where
  | file (name : String)
  | dir (name : String) (children : List Entry)

/-- Number of files in a directory tree, the N of the claim. -/
def countFiles : List Entry → Nat
  | [] => 0
  | .file _ :: rest => countFiles rest + 1
  | .dir _ cs :: rest => countFiles cs + countFiles rest

/-- Loop body of del_tree (fusb_mass_storage_sync.py, lines 165-180) over the
children of one directory: a file child is unlinked and counted; a directory
child is processed recursively at level + 1, after which its own
p.rmdir() runs (level + 1 > 0) - Python's rmdir raises OSError when contents
remain, so the model errors unless the recursive residual is empty.  Returns
the files deleted and the residual children of this directory. -/
def del_tree_loop : List Entry → Except String (Nat × List Entry)
  | [] => .ok (0, [])
  | .file _ :: rest =>
    match del_tree_loop rest with
    | .error e => .error e
    | .ok p => .ok (p.1 + 1, p.2)
  | .dir _ cs :: rest =>
    match del_tree_loop cs with
    | .error e => .error e
    | .ok (ncs, []) =>
      match del_tree_loop rest with
      | .error e => .error e
      | .ok p => .ok (ncs + p.1, p.2)
    | .ok (_, _ :: _) => .error "OSError"

/-- del_tree at the top-level call (level = 0, the default): the root's
children are processed but the root itself is never rmdir'd; the result is the
deleted-file count and the root's residual children. -/
def del_tree (children : List Entry) : Except String (Nat × List Entry) :=
  del_tree_loop children

theorem del_tree_loop_ok : ∀ cs : List Entry, del_tree_loop cs = .ok (countFiles cs, []) := by
  intro cs
  induction cs using del_tree_loop.induct <;>
    simp_all [del_tree_loop, countFiles] <;> subst_vars <;> simp

/-- C3: for every finite directory tree, del_tree on the root returns exactly
the number N of files in the tree and leaves the root present with no residual
children: every file and every subdirectory under the root is removed, every
intermediate rmdir finds its directory already empty, and the root itself is
never removed. -/
theorem c3_del_tree_count (cs : List Entry) :
    del_tree cs = .ok (countFiles cs, []) :=
  del_tree_loop_ok cs

/-- Observable outcome of one ui_sync_drive run: the configuration afterwards,
the number of error popups shown, the sync_drive invocations (by drive), and
the settle delay slept before each folder prompt, in order. -/
structure UiTrace where
  cfg : Config
  errors : Nat
  syncs : List String
  sleeps : List Rat
deriving DecidableEq

/-- ui_sync_drive (fusb_mass_storage_sync.py, lines 125-142) driven by a
script of folder-picker responses (none = the user cancelled the prompt).
The run sleeps the settle delay (the argument when given, else the class
constant sleep_before_sync), prompts; on cancel it returns silently; on a
choice that is a valid existing directory it persists the folder when it
differs from the configured one and invokes sync_drive; otherwise it shows an
error popup and retries itself with delay 0.0.  The sync_drive call is
recorded as an event; its own internals are outside this model.  Returns none
when the response script is exhausted while still re-prompting. -/
def ui_sync_drive (isdir exs : String → Bool) (drive : String) (cfg : Config)
    (sleep_arg : Option Rat) :
    List (Option String) → Option (UiTrace × List (Option String))
  | [] => none
  | resp :: rest =>
    match resp with
    | none => some (⟨cfg, 0, [], [sleep_arg.getD sleep_before_sync]⟩, rest)
    | some filename =>
      if isdir filename && exs filename then
        some (⟨if some filename ≠ local_folder cfg then
                 set_settings cfg "local_folder" filename
               else cfg,
               0, [drive], [sleep_arg.getD sleep_before_sync]⟩, rest)
      else
        match ui_sync_drive isdir exs drive cfg (some 0) rest with
        | none => none
        | some (t, rem) =>
          some (⟨t.cfg, t.errors + 1, t.syncs,
                 sleep_arg.getD sleep_before_sync :: t.sleeps⟩, rem)

/-- Settle delays observed across a run that prompts 1 + k times: the caller's
delay first, then 0.0 for each of the k retries. -/
def sleepsOf (d : Option Rat) (k : Nat) : List Rat :=
  d.getD sleep_before_sync :: List.replicate k 0

theorem ui_all_invalid_none (isdir exs : String → Bool) (drive : String) (cfg : Config) :
    ∀ (invalids : List String) (d : Option Rat),
      (∀ p ∈ invalids, (isdir p && exs p) = false) →
      ui_sync_drive isdir exs drive cfg d (invalids.map some) = none := by
  intro invalids
  induction invalids with
  | nil => intro d _; rfl
  | cons p ps ih =>
    intro d hinv
    have hp : (isdir p && exs p) = false := hinv p (by simp)
    have hrec := ih (some 0) (fun x hx => hinv x (by simp [hx]))
    simp [ui_sync_drive, hp, hrec]

theorem ui_invalid_then_cancel (isdir exs : String → Bool) (drive : String) (cfg : Config) :
    ∀ (invalids : List String) (d : Option Rat),
      (∀ p ∈ invalids, (isdir p && exs p) = false) →
      ui_sync_drive isdir exs drive cfg d (invalids.map some ++ [none]) =
        some (⟨cfg, invalids.length, [], sleepsOf d invalids.length⟩, []) := by
  intro invalids
  induction invalids with
  | nil => intro d _; simp [ui_sync_drive, sleepsOf]
  | cons p ps ih =>
    intro d hinv
    have hp : (isdir p && exs p) = false := hinv p (by simp)
    have hrec := ih (some 0) (fun x hx => hinv x (by simp [hx]))
    simp [ui_sync_drive, hp, hrec, sleepsOf, List.replicate_succ]

theorem ui_invalid_then_valid (isdir exs : String → Bool) (drive : String) (cfg : Config) :
    ∀ (invalids : List String) (d : Option Rat) (q : String) (rest : List (Option String)),
      (∀ p ∈ invalids, (isdir p && exs p) = false) →
      (isdir q && exs q) = true →
      ui_sync_drive isdir exs drive cfg d (invalids.map some ++ some q :: rest) =
        some (⟨if some q ≠ local_folder cfg then set_settings cfg "local_folder" q else cfg,
               invalids.length, [drive], sleepsOf d invalids.length⟩, rest) := by
  intro invalids
  induction invalids with
  | nil =>
    intro d q rest _ hq
    simp [ui_sync_drive, hq, sleepsOf]
  | cons p ps ih =>
    intro d q rest hinv hq
    have hp : (isdir p && exs p) = false := hinv p (by simp)
    have hrec := ih (some 0) q rest (fun x hx => hinv x (by simp [hx])) hq
    simp [ui_sync_drive, hp, hrec, sleepsOf, List.replicate_succ]

/-- C8: when a chosen path is not a valid existing directory, ui_sync_drive
shows one error popup and re-prompts with settle delay 0.0; this repeats for
every further invalid choice, the run only finishing when the user cancels or
picks a valid directory, and no sync_drive call and no configuration write
happens for any invalid choice (the configuration and sync events of the run
come only from the final valid choice, if any). -/
theorem c8_invalid_folder_retry (isdir exs : String → Bool) (drive : String) (cfg : Config)
    (d : Option Rat) (invalids : List String)
    (hinv : ∀ p ∈ invalids, (isdir p && exs p) = false) :
    ui_sync_drive isdir exs drive cfg d (invalids.map some) = none
    ∧ ui_sync_drive isdir exs drive cfg d (invalids.map some ++ [none]) =
        some (⟨cfg, invalids.length, [], sleepsOf d invalids.length⟩, [])
    ∧ ∀ (q : String) (rest : List (Option String)), (isdir q && exs q) = true →
        ui_sync_drive isdir exs drive cfg d (invalids.map some ++ some q :: rest) =
          some (⟨if some q ≠ local_folder cfg then set_settings cfg "local_folder" q else cfg,
                 invalids.length, [drive], sleepsOf d invalids.length⟩, rest) :=
  ⟨ui_all_invalid_none isdir exs drive cfg invalids d hinv,
   ui_invalid_then_cancel isdir exs drive cfg invalids d hinv,
   fun q rest hq => ui_invalid_then_valid isdir exs drive cfg invalids d q rest hinv hq⟩

theorem c8_invalid_folder_retry_witness :
    ui_sync_drive (fun p => p == "D") (fun p => p == "D") "E:" ⟨[], none, 0⟩ none
        (["X"].map some ++ some "D" :: []) =
      some (⟨if some "D" ≠ local_folder ⟨[], none, 0⟩ then
               set_settings ⟨[], none, 0⟩ "local_folder" "D"
             else ⟨[], none, 0⟩,
             (["X"] : List String).length, ["E:"],
             sleepsOf none (["X"] : List String).length⟩, []) :=
  (c8_invalid_folder_retry (fun p => p == "D") (fun p => p == "D") "E:" ⟨[], none, 0⟩
    none ["X"] (by decide)).2.2 "D" [] (by decide)

/-- C9: cancelling the folder prompt makes the detection handler a silent
no-op: the configuration is returned unchanged (so nothing is written), no
sync_drive call and no error popup is recorded; and since the drive was
already appended to the tracked list before the callback ran, it stays
tracked: a later detect_new_drives never fires the callback for it again, and
while it remains enumerated it remains in the tracked list. -/
theorem c9_cancel_silent_noop (isdir exs : String → Bool) (drive : String) (cfg : Config)
    (d : Option Rat) (rest : List (Option String)) :
    ui_sync_drive isdir exs drive cfg d (none :: rest) =
      some (⟨cfg, 0, [], [d.getD sleep_before_sync]⟩, rest)
    ∧ ∀ ds current, drive ∈ ds →
        drive ∉ (Fmount.detect_new_drives ds current).2
        ∧ (drive ∈ current → drive ∈ (Fmount.detect_new_drives ds current).1) := by
  constructor
  · rfl
  · intro ds current hmem
    constructor
    · have hrw : (Fmount.detect_new_drives ds current).2
          = (Fmount.addLoop ds [] current).2 := rfl
      rw [hrw]
      exact Fmount.addLoop_cb_not_mem hmem (by simp)
    · intro hcur
      exact Fmount.mem_detect_of_mem_current hcur

theorem c9_cancel_silent_noop_witness :
    ui_sync_drive (fun _ => true) (fun _ => true) "E:" ⟨[], none, 0⟩ none [none] =
      some (⟨⟨[], none, 0⟩, 0, [], [sleep_before_sync]⟩, [])
    ∧ ("E:" ∉ (Fmount.detect_new_drives ["E:"] ["E:"]).2
        ∧ ("E:" ∈ ["E:"] → "E:" ∈ (Fmount.detect_new_drives ["E:"] ["E:"]).1)) :=
  ⟨(c9_cancel_silent_noop (fun _ => true) (fun _ => true) "E:" ⟨[], none, 0⟩ none []).1,
   (c9_cancel_silent_noop (fun _ => true) (fun _ => true) "E:" ⟨[], none, 0⟩ none []).2
     ["E:"] ["E:"] (by decide)⟩

end FMassStorageSync
